import Mathlib

/-!
Verification of the Agent Orchestration and Memory Engine of the
contextual-agentic-assistant backend, as a shallow embedding in Lean 4.

The embedding translates the relevant Python sources:
  - backend/memory_brain.py  (fact extraction, store_facts, retrieval, update/delete)
  - backend/agent.py         (intent routing, tool execution, response synthesis)
  - backend/database.py      (MemoryEntry row model and its check constraint on
                              confidence; the model's JSON column is named
                              metadata and the mapped class exposes no
                              extra_data attribute, so the row construction
                              attempted by store_facts raises TypeError)

Modelling conventions:
  - Python float confidences and scores are modelled as rationals; the literal
    coefficients 0.1, 0.3, 0.7, 0.85, 0.9 are exact decimals.
  - Python strings are Lean Strings; the substring operator is modelled over
    the character list, and str.lower as a character-wise map with the core
    ASCII case folding, which covers every trigger word and pattern in the
    source.
  - datetimes are abstracted to Nat timestamps, uuid keys to Nat identifiers.
  - re.search over the fixed pattern tables is embedded pattern by pattern as
    an executable matcher with backtracking-existence semantics; new-row
    creation in store_facts is embedded as the raising branch it is in the
    source, where MemoryEntry(..., extra_data=...) passes a keyword the
    mapped class does not accept.
-/

namespace Assistant

/-- Scan for needle as a contiguous run starting at any position. -/
def containsAux (needle : List Char) : List Char → Bool
  | [] => needle.isPrefixOf []
  | c :: cs => needle.isPrefixOf (c :: cs) || containsAux needle cs

/-- Python substring operator: needle in haystack, over character lists. -/
def containsSub (needle haystack : String) : Bool :=
  containsAux needle.toList haystack.toList

theorem containsAux_iff (n h : List Char) : containsAux n h = true ↔ n <:+: h := by
  induction h with
  | nil =>
    simp only [containsAux, List.isPrefixOf_iff_prefix, List.prefix_nil,
      List.infix_nil]
  | cons c cs ih =>
    simp only [containsAux, Bool.or_eq_true, List.isPrefixOf_iff_prefix, ih,
      List.infix_cons_iff]

theorem containsSub_mono {n₁ n₂ h : String}
    (hsub : n₂.toList <:+: n₁.toList) (hc : containsSub n₁ h = true) :
    containsSub n₂ h = true := by
  rw [containsSub, containsAux_iff] at hc ⊢
  exact hsub.trans hc

/-- Python str.lower: character-wise lowering of the text (the ASCII fold of
the core library, enough for every trigger word and pattern in the source). -/
def pyLower (s : String) : String := String.mk (s.toList.map Char.toLower)

/-- Python str.split() with no argument: split on whitespace runs, no empties. -/
def pySplit (s : String) : List String :=
  ((s.toList.splitOnP (fun c => c.isWhitespace)).filter (fun w => w ≠ [])).map
    (fun w => String.mk w)

/-- Pair each element with its position, starting at n. -/
def withIdx (n : Nat) : List α → List (α × Nat)
  | [] => []
  | x :: xs => (x, n) :: withIdx (n + 1) xs

/-- Stable insertion step for a descending sort: x is placed before the first
element it compares greater-or-equal to, so earlier elements win ties. -/
def insertStable (ge : α → α → Bool) (x : α) : List α → List α
  | [] => [x]
  | y :: ys => if ge x y then x :: y :: ys else y :: insertStable ge x ys

/-- Stable descending sort, the embedding of Python list.sort with a key and
reverse=True (Python guarantees stability in both directions). -/
def sortStable (ge : α → α → Bool) : List α → List α
  | [] => []
  | x :: xs => insertStable ge x (sortStable ge xs)

/-- Replace the first element satisfying p by its image under f (the ORM
mutation of the single row returned by query(...).first()). -/
def updateFirst (p : α → Bool) (f : α → α) : List α → List α
  | [] => []
  | x :: xs => if p x then f x :: xs else x :: updateFirst p f xs

/-- Lookup in a string-keyed association list (dict.get). -/
def dictGet (d : List (String × String)) (k : String) : Option String :=
  (d.find? (fun kv => kv.1 == k)).map (fun kv => kv.2)

/-- Python truthiness of dict.get(k): a present, non-empty value. -/
def dictGetTruthy (d : List (String × String)) (k : String) : Bool :=
  match dictGet d k with
  | some v => v ≠ ""
  | none => false

/-! ## Data model (backend/database.py and the dicts of memory_brain.py) -/

/-- Memory categories (class MemoryCategory). -/
def MemoryCategory.PREFERENCE : String := "preference"

def MemoryCategory.PROJECT : String := "project"

def MemoryCategory.CONTACT : String := "contact"

def MemoryCategory.STYLE : String := "style"

def MemoryCategory.FACT : String := "fact"

def MemoryCategory.TASK : String := "task"

def MemoryCategory.SCHEDULE : String := "schedule"

/-- Memory sources (class MemorySource). -/
def MemorySource.CHAT : String := "chat"

def MemorySource.EMAIL : String := "email"

def MemorySource.CALENDAR : String := "calendar"

def MemorySource.EXPLICIT : String := "explicit"

/-- Persisted memory_entries row (class MemoryEntry in database.py). -/
structure MemoryEntry where
  mid : Nat
  user_id : String
  content : String
  category : String
  source : String
  confidence : ℚ
  created_at : Nat
  updated_at : Nat
deriving DecidableEq, Repr

/-- Extracted fact candidate, the dict built by the extractor before
store_facts persists it. -/
structure Fact where
  content : String
  category : String
  source : String
  confidence : ℚ
deriving DecidableEq, Repr

/-- Conversation turn: one element of the messages list. -/
structure Msg where
  role : String
  content : String
deriving DecidableEq, Repr

/-- CheckConstraint check_confidence of the memory_entries table: a row commits
only when 0 <= confidence <= 1. -/
def rowValid (e : MemoryEntry) : Bool :=
  decide ((0 : ℚ) ≤ e.confidence) && decide (e.confidence ≤ (1 : ℚ))

/-- Commit of a transaction: every row of the would-be table state must pass
the check constraint, otherwise the database raises and the session rolls
back. -/
def commitOK (es : List MemoryEntry) : Bool := es.all rowValid

/-! ## Tool Router (AgenticAssistant._analyze_intent, agent.py lines 114-163) -/

/-- Gmail intent table, in its source insertion order. -/
def gmail_keywords : List (String × String × String) :=
  [ ("inbox", "gmail", "fetch_emails"),
    ("email", "gmail", "fetch_emails"),
    ("mail", "gmail", "fetch_emails"),
    ("unread", "gmail", "get_important_emails"),
    ("important emails", "gmail", "get_important_emails"),
    ("send email", "gmail", "send_email"),
    ("reply", "gmail", "send_email") ]

/-- Calendar intent table, in its source insertion order. -/
def calendar_keywords : List (String × String × String) :=
  [ ("calendar", "calendar", "get_upcoming_events"),
    ("schedule", "calendar", "get_today_schedule"),
    ("today", "calendar", "get_today_schedule"),
    ("meetings", "calendar", "get_upcoming_events"),
    ("events", "calendar", "get_upcoming_events"),
    ("next meeting", "calendar", "get_next_meeting"),
    ("available", "calendar", "check_availability"),
    ("free", "calendar", "check_availability") ]

/-- First keyword of the table occurring in the lowered message, with its
(tool, action); the for-loop with break. -/
def findKeyword (tbl : List (String × String × String)) (m : String) :
    Option (String × String) :=
  match tbl with
  | [] => none
  | (kw, t, a) :: rest =>
    if containsSub kw m then some (t, a) else findKeyword rest m

/-- Intent analysis: lower the last user message, scan the gmail table first,
then the calendar table; none means needs_tool stays False. -/
def analyze_intent (message : String) : Option (String × String) :=
  let m := pyLower message
  match findKeyword gmail_keywords m with
  | some r => some r
  | none => findKeyword calendar_keywords m

/-! ## Fact Extractor (MemoryBrain.extract_facts_from_conversation)

Each regular expression of the two pattern tables is embedded as an
executable matcher with the existence semantics of re.search: the anchored
matcher is tried at every start position, and within one position the
quantified groups backtrack. The content is lowered before matching, so
re.IGNORECASE adds nothing. -/

/-- Python regex word character for the lowered texts in scope. -/
def isWordChar (c : Char) : Bool := c.isAlphanum || c == '_'

/-- Anchored matcher for a trailing (.+) group: one or more non-newline
characters must start here. -/
def dotPlusEnd : List Char → Bool
  | [] => false
  | c :: _ => c ≠ '\n'

/-- Anchored matcher for a trailing (w+) group: a word character starts here. -/
def wordCharEnd : List Char → Bool
  | [] => false
  | c :: _ => isWordChar c

/-- Anchored matcher that accepts immediately (the pattern has ended; the rest
of the subject is unconstrained, including an empty trailing (.*) group). -/
def matchEnd : List Char → Bool := fun _ => true

/-- Anchored literal followed by a continuation. -/
def litThen (t : String) (k : List Char → Bool) (s : List Char) : Bool :=
  t.toList.isPrefixOf s && k (s.drop t.toList.length)

/-- Anchored alternation of literals followed by a continuation. -/
def altThen (ts : List String) (k : List Char → Bool) (s : List Char) : Bool :=
  ts.any (fun t => litThen t k s)

/-- Anchored (w+) group followed by a continuation, backtracking over the
number of word characters consumed (at least one). -/
def wordPlusThen (k : List Char → Bool) : List Char → Bool
  | [] => false
  | c :: cs => isWordChar c && (k cs || wordPlusThen k cs)

/-- Anchored (.+) group followed by a continuation, backtracking over the
number of non-newline characters consumed (at least one). -/
def dotPlusThen (k : List Char → Bool) : List Char → Bool
  | [] => false
  | c :: cs => (c ≠ '\n') && (k cs || dotPlusThen k cs)

/-- Unanchored search: try the anchored matcher at every start position. -/
def reSearch (m : List Char → Bool) : List Char → Bool
  | [] => m []
  | c :: cs => m (c :: cs) || reSearch m cs

/-- Run a search over a string subject. -/
def searchString (m : List Char → Bool) (s : String) : Bool := reSearch m s.toList

/-- Pattern i (?:hate|don't like|dislike|avoid) (.+) -/
def pat_pref_dislike (s : String) : Bool :=
  searchString (altThen ["i hate ", "i don\x27t like ", "i dislike ", "i avoid "] dotPlusEnd) s

/-- Pattern i (?:love|like|prefer|enjoy) (.+) -/
def pat_pref_like (s : String) : Bool :=
  searchString (altThen ["i love ", "i like ", "i prefer ", "i enjoy "] dotPlusEnd) s

/-- Pattern i never (.+) -/
def pat_pref_never (s : String) : Bool :=
  searchString (litThen "i never " dotPlusEnd) s

/-- Pattern i always (.+) -/
def pat_pref_always (s : String) : Bool :=
  searchString (litThen "i always " dotPlusEnd) s

/-- Pattern don't schedule (.+) -/
def pat_dont_schedule (s : String) : Bool :=
  searchString (litThen "don\x27t schedule " dotPlusEnd) s

/-- Pattern (?:my name is|i'm|i am) (w+) -/
def pat_name_is (s : String) : Bool :=
  searchString (altThen ["my name is ", "i\x27m ", "i am "] wordCharEnd) s

/-- Pattern (?:call me|address me as) (w+) -/
def pat_call_me (s : String) : Bool :=
  searchString (altThen ["call me ", "address me as "] wordCharEnd) s

/-- Pattern (?:project|task) (w+) (?:is|was|has been) (delayed|cancelled|completed|on track) -/
def pat_project_status (s : String) : Bool :=
  searchString (altThen ["project ", "task "]
    (wordPlusThen (litThen " "
      (altThen ["is ", "was ", "has been "]
        (altThen ["delayed", "cancelled", "completed", "on track"] matchEnd))))) s

/-- Pattern (w+) project (?:is|was) (.*) -/
def pat_project_is (s : String) : Bool :=
  searchString (wordPlusThen (litThen " project "
    (altThen ["is ", "was "] matchEnd))) s

/-- Pattern deadline for (.+) (?:is|was|has been) (?:extended|moved|changed) -/
def pat_deadline (s : String) : Bool :=
  searchString (litThen "deadline for "
    (dotPlusThen (litThen " "
      (altThen ["is ", "was ", "has been "]
        (altThen ["extended", "moved", "changed"] matchEnd))))) s

/-- Table self.preference_patterns, in source order. -/
def preference_patterns : List ((String → Bool) × String) :=
  [ (pat_pref_dislike, MemoryCategory.PREFERENCE),
    (pat_pref_like, MemoryCategory.PREFERENCE),
    (pat_pref_never, MemoryCategory.PREFERENCE),
    (pat_pref_always, MemoryCategory.PREFERENCE),
    (pat_dont_schedule, MemoryCategory.SCHEDULE),
    (pat_name_is, MemoryCategory.FACT),
    (pat_call_me, MemoryCategory.PREFERENCE) ]

/-- Table self.project_patterns, in source order. -/
def project_patterns : List ((String → Bool) × String) :=
  [ (pat_project_status, MemoryCategory.PROJECT),
    (pat_project_is, MemoryCategory.PROJECT),
    (pat_deadline, MemoryCategory.PROJECT) ]

/-- Facts extracted from one user turn: one candidate per matching preference
pattern at confidence 0.9, then one per matching project pattern at 0.85; the
stored content is the original, non-lowered turn text. -/
def extract_turn (content : String) : List Fact :=
  ((preference_patterns.filter (fun p => p.1 (pyLower content))).map
    (fun p => Fact.mk content p.2 MemorySource.CHAT (9 / 10)))
  ++ ((project_patterns.filter (fun p => p.1 (pyLower content))).map
    (fun p => Fact.mk content p.2 MemorySource.CHAT (17 / 20)))

/-- MemoryBrain.extract_facts_from_conversation without the trailing
store_facts call (persistence is sequenced by the orchestrator model): scan
every user-authored turn with both pattern tables. -/
def extract_facts_from_conversation (messages : List Msg) : List Fact :=
  (messages.map (fun m => if m.role == "user" then extract_turn m.content else [])).flatten

/-! ## Memory Store Adapter (MemoryBrain.store_facts, update_memory,
delete_memory over the memory_entries table)

store_facts runs its whole batch inside one try block. A fact whose
(user_id, content) matches a committed row only bumps that row's confidence
in the session; the bump is visible to later duplicate checks of the same
call (identity map) and persists if the final commit succeeds. A fact with
no matching row reaches the constructor call MemoryEntry(..., extra_data=...):
the mapped class accepts no extra_data keyword — its JSON column is named
metadata — so the constructor raises TypeError before db.add and before
stored_count is incremented; the blanket except rolls the session back and
the function still returns stored_count, which is 0. Commit of an
all-duplicate batch enforces the check constraint on every row; on a
violation the session likewise rolls back. No call therefore ever inserts a
row, and the returned count is always 0. -/

/-- Duplicate check predicate: same user and exact content text. -/
def dupKey (uid content : String) (e : MemoryEntry) : Bool :=
  e.user_id == uid && e.content == content

/-- Merge rule on a duplicate: raise confidence if the new value is higher. -/
def bumpConfidence (now : Nat) (conf : ℚ) (e : MemoryEntry) : MemoryEntry :=
  if conf > e.confidence then { e with confidence := conf, updated_at := now } else e

/-- Loop body of store_facts: a fact matching a committed row bumps that row
in place; a fact with no matching row hits the MemoryEntry constructor,
which raises TypeError (none) and aborts the loop. -/
def storeLoop (uid : String) (now : Nat) :
    List Fact → List MemoryEntry → Option (List MemoryEntry)
  | [], committed => some committed
  | f :: fs, committed =>
    if (committed.find? (dupKey uid f.content)).isSome then
      storeLoop uid now fs
        (updateFirst (dupKey uid f.content) (bumpConfidence now f.confidence) committed)
    else none

/-- MemoryBrain.store_facts: run the batch; a raised TypeError or a failed
commit rolls the table back. The returned stored_count is always 0: its
increment sits after the constructor call that raises on every new fact, and
duplicate facts skip it by continue. -/
def store_facts (store : List MemoryEntry) (uid : String) (now : Nat)
    (facts : List Fact) : List MemoryEntry × Nat :=
  match storeLoop uid now facts store with
  | some committed => if commitOK committed then (committed, 0) else (store, 0)
  | none => (store, 0)

/-- Row lookup by primary key and owner. -/
def rowKey (uid : String) (mid : Nat) (e : MemoryEntry) : Bool :=
  e.mid == mid && e.user_id == uid

/-- MemoryBrain.update_memory: overwrite content when the new value is truthy,
confidence when it is not None, then commit; a check constraint violation
rolls back and reports failure. -/
def update_memory (store : List MemoryEntry) (uid : String) (mid : Nat)
    (new_content : Option String) (new_confidence : Option ℚ) (now : Nat) :
    List MemoryEntry × Bool :=
  match store.find? (rowKey uid mid) with
  | none => (store, false)
  | some _ =>
    let upd := fun (e : MemoryEntry) =>
      let e1 := match new_content with
        | some c => if c ≠ "" then { e with content := c } else e
        | none => e
      let e2 := match new_confidence with
        | some c => { e1 with confidence := c }
        | none => e1
      { e2 with updated_at := now }
    let store1 := updateFirst (rowKey uid mid) upd store
    if commitOK store1 then (store1, true) else (store, false)

/-- Remove the first element satisfying p (db.delete of the row returned by
query(...).first()). -/
def removeFirst (p : α → Bool) : List α → List α
  | [] => []
  | x :: xs => if p x then xs else x :: removeFirst p xs

/-- MemoryBrain.delete_memory. -/
def delete_memory (store : List MemoryEntry) (uid : String) (mid : Nat) :
    List MemoryEntry × Bool :=
  match store.find? (rowKey uid mid) with
  | none => (store, false)
  | some _ => (removeFirst (rowKey uid mid) store, true)

/-- Lifecycle operations that write the memory_entries table. -/
inductive MemOp where
  | storeOp (now : Nat) (facts : List Fact)
  | updateOp (mid : Nat) (new_content : Option String) (new_confidence : Option ℚ) (now : Nat)
  | deleteOp (mid : Nat)

/-- Table state after one lifecycle operation. -/
def applyOp (uid : String) (store : List MemoryEntry) : MemOp → List MemoryEntry
  | .storeOp now facts => (store_facts store uid now facts).1
  | .updateOp mid nc nconf now => (update_memory store uid mid nc nconf now).1
  | .deleteOp mid => (delete_memory store uid mid).1

/-- Table state after a sequence of lifecycle operations. -/
def runOps (uid : String) (store : List MemoryEntry) (ops : List MemOp) :
    List MemoryEntry :=
  ops.foldl (applyOp uid) store

/-! ## Memory Retrieval Engine (MemoryBrain.retrieve_relevant_memories) -/

/-- Category filter: `if categories:` is skipped for None and for an empty
list (both falsy). -/
def catFilter (categories : Option (List String)) (e : MemoryEntry) : Bool :=
  match categories with
  | none => true
  | some [] => true
  | some cs => cs.contains e.category

/-- Fetch order of the SELECT: confidence descending, then updated_at
descending; remaining ties keep table order. -/
def fetchOrder (a b : MemoryEntry) : Bool :=
  decide (a.confidence > b.confidence) ||
    (a.confidence == b.confidence && decide (b.updated_at ≤ a.updated_at))

/-- Candidate fetch: the user's rows, optionally category-filtered, ordered by
confidence then recency, limited to limit rows. -/
def fetch_candidates (store : List MemoryEntry) (uid : String)
    (categories : Option (List String)) (limit : Nat) : List MemoryEntry :=
  (sortStable fetchOrder
    (store.filter (fun e => e.user_id == uid && catFilter categories e))).take limit

/-- Count of distinct tokens shared by the lowered context and content
(len of the intersection of the two token sets). -/
def overlapCount (context_lower content_lower : String) : Nat :=
  (((pySplit context_lower).dedup).filter
    (fun w => (pySplit content_lower).contains w)).length

/-- Relevance scoring of one candidate, accumulated exactly as in the source:
start at 0, add 0.1 per overlapping token, then each category bonus. -/
def relevance_score (context_lower : String) (e : MemoryEntry) : ℚ :=
  let score : ℚ := 0
  let score := score + (overlapCount context_lower (pyLower e.content) : ℚ) * (1 / 10)
  let score :=
    if (containsSub "meeting" context_lower || containsSub "schedule" context_lower)
        && (e.category == MemoryCategory.SCHEDULE || e.category == MemoryCategory.PREFERENCE)
      then score + 3 / 10 else score
  let score :=
    if (containsSub "email" context_lower || containsSub "mail" context_lower)
        && (e.category == MemoryCategory.PROJECT || e.category == MemoryCategory.CONTACT)
      then score + 3 / 10 else score
  score

/-- Returned memory dict of retrieve_relevant_memories. -/
structure RetMem where
  rid : Nat
  content : String
  category : String
  source : String
  confidence : ℚ
  relevance : ℚ
  created_at : Nat
deriving DecidableEq, Repr

/-- Projection of a scored candidate onto the returned dict. -/
def toRetMem (context_lower : String) (e : MemoryEntry) : RetMem :=
  RetMem.mk e.mid e.content e.category e.source e.confidence
    (relevance_score context_lower e) e.created_at

/-- Keep rule: some relevance, or confidence above 0.7. -/
def keepMemory (context_lower : String) (e : MemoryEntry) : Bool :=
  decide (relevance_score context_lower e > 0) || decide (e.confidence > 7 / 10)

/-- Scoring pass over the fetched candidates, in fetch order. -/
def score_and_filter (context : String) (candidates : List MemoryEntry) :
    List RetMem :=
  (candidates.filter (keepMemory (pyLower context))).map (toRetMem (pyLower context))

/-- Final sort key comparison: combined confidence + relevance, descending. -/
def combinedOrder (a b : RetMem) : Bool :=
  decide (b.confidence + b.relevance ≤ a.confidence + a.relevance)

/-- MemoryBrain.retrieve_relevant_memories. -/
def retrieve_relevant_memories (store : List MemoryEntry) (uid : String)
    (context : String) (categories : Option (List String)) (limit : Nat) :
    List RetMem :=
  let candidates := fetch_candidates store uid categories limit
  let relevant := score_and_filter context candidates
  (sortStable combinedOrder relevant).take limit

/-! ## Tool Executor (AgenticAssistant._execute_tool)

The two-level capability table self.tools maps capability names to action
names; the callables behind the actions are external collaborators and enter
the model as the call parameter. A raise inside the external call arrives as
an error value and is converted to an error dict by the except clause of the
stage; the stage itself never raises, which the model reflects by being a
total function. -/

/-- Normalized tool stage outcome: the value bound to state["tool_result"],
which in the source is a list of dicts, a dict, or None. -/
inductive ToolResult where
  | rlist (items : List (List (String × String)))
  | rdict (d : List (String × String))
  | rnone
deriving DecidableEq, Repr

/-- Capability table self.tools: capability name to action names. -/
def tools : List (String × List String) :=
  [ ("gmail",
      ["fetch_emails", "search_emails", "get_email_details", "send_email",
       "get_important_emails"]),
    ("calendar",
      ["get_upcoming_events", "get_today_schedule", "check_availability",
       "get_next_meeting"]) ]

/-- Two-level lookup self.tools.get(tool_name, dict()).get(tool_action). -/
def lookupAction (tool_name tool_action : String) : Bool :=
  match tools.find? (fun t => t.1 == tool_name) with
  | some t => t.2.contains tool_action
  | none => false

/-- AgenticAssistant._execute_tool. -/
def execute_tool (call : String → String → Except String ToolResult)
    (tool_name tool_action : String) : ToolResult :=
  if tool_name != "" && tool_action != "" then
    if lookupAction tool_name tool_action then
      match call tool_name tool_action with
      | .ok r => r
      | .error e => .rdict [("error", e)]
    else .rdict [("error", "Tool not found")]
  else .rnone

/-! ## Response Synthesizer (AgenticAssistant._generate_response and
_format_tool_results)

The source file stores its emoji markers as double-encoded UTF-8; the
embedding reproduces the resulting characters exactly, by escape codes. -/

/-- Bullet marker of the formatted digests. -/
def bulletMark : String := "â€¢"

/-- Visible warning marker prefixed to degraded tool information. -/
def warningMarker : String := "âš ï¸"

/-- Marker of the memory section header. -/
def memoryMark : String := "ðŸ“"

/-- Marker of the data section header. -/
def dataMark : String := "ðŸ“Š"

/-- Percentage rendering of a confidence, the format spec .0 percent. -/
def confPercent (q : ℚ) : String := toString (round (q * 100) : ℤ) ++ "%"

/-- Fallback rendering of structured data (json.dumps, whose exact layout no
property in scope inspects). -/
def jsonDumpsPairs (d : List (String × String)) : String :=
  "\x7b" ++ String.intercalate ", "
    (d.map (fun kv => "\"" ++ kv.1 ++ "\": \"" ++ kv.2 ++ "\"")) ++ "\x7d"

/-- AgenticAssistant._format_tool_results: capability-specific digest of the
first five items. -/
def format_tool_results (tool_name : String)
    (results : List (List (String × String))) : String :=
  if tool_name == "gmail" then
    String.intercalate "\n" ((results.take 5).map (fun email =>
      bulletMark ++ " From: " ++ ((dictGet email "from").getD "Unknown") ++ "\n" ++
      "  Subject: " ++ ((dictGet email "subject").getD "No subject") ++ "\n" ++
      "  Preview: " ++ (((dictGet email "snippet").getD "").take 80) ++ "..."))
  else if tool_name == "calendar" then
    String.intercalate "\n" ((results.take 5).map (fun event =>
      bulletMark ++ " " ++ ((dictGet event "title").getD "No title") ++ "\n" ++
      "  Time: " ++ ((dictGet event "start").getD "Unknown") ++ "\n" ++
      "  Location: " ++ ((dictGet event "location").getD "No location")))
  else
    String.intercalate "\n" (results.map jsonDumpsPairs)

/-- Instruction preamble of the system prompt, verbatim. -/
def basePrompt : String :=
  "You are an intelligent AI assistant acting as a personal \"Chief of Staff\". \n" ++
  "You help users manage their day by accessing their Gmail and Calendar when needed.\n\n" ++
  "Your capabilities:\n" ++
  "- Read and summarize emails from the user\x27s inbox\n" ++
  "- Check calendar events and schedules\n" ++
  "- Help draft and send email replies\n" ++
  "- Remember user preferences and context\n\n" ++
  "Be concise, professional, and proactive. Provide actionable insights."

/-- Memory section body: one bullet per retrieved memory with its confidence
as a percentage. -/
def memoryText (memory_context : List RetMem) : String :=
  String.intercalate "\n" (memory_context.map (fun mem =>
    bulletMark ++ " " ++ mem.content ++ " (confidence: " ++
      confPercent mem.confidence ++ ")"))

/-- Grounding text assembly of _generate_response: preamble, then the memory
section when memories were retrieved, then the tool section, whose shape
depends on the tool result (formatted digest, structured dump, or a visible
warning marker replacing the payload). -/
def build_system_prompt (memory_context : List RetMem) (tool_name : String)
    (tool_result : ToolResult) : String :=
  let p := basePrompt
  let p := if memory_context.isEmpty then p
    else p ++ "\n\n" ++ memoryMark ++ " What I remember about you:\n" ++
      memoryText memory_context
  match tool_result with
  | .rnone => p
  | .rlist [] => p
  | .rlist (it :: its) =>
    if !(dictGetTruthy it "error") then
      p ++ "\n\n" ++ dataMark ++ " Data retrieved:\n" ++
        format_tool_results tool_name (it :: its)
    else
      p ++ "\n\n" ++ warningMarker ++ " Could not access data: " ++
        ((dictGet it "error").getD "")
  | .rdict [] => p
  | .rdict (kv :: d) =>
    if dictGetTruthy (kv :: d) "error" then
      p ++ "\n\n" ++ warningMarker ++ " Error: " ++
        ((dictGet (kv :: d) "error").getD "")
    else
      p ++ "\n\n" ++ dataMark ++ " Data retrieved:\n" ++ jsonDumpsPairs (kv :: d)

/-- Message list handed to the language model: the instruction block, then the
conversation history with user turns as human messages and the rest as ai
messages. -/
def build_messages (memory_context : List RetMem) (tool_name : String)
    (tool_result : ToolResult) (history : List Msg) : List (String × String) :=
  ("human", "System Instructions: " ++
      build_system_prompt memory_context tool_name tool_result)
    :: history.map (fun m => (if m.role == "user" then "human" else "ai", m.content))

/-- Fixed apology returned when the language model invocation raises. -/
def apologyText : String :=
  "I apologize, but I encountered an error processing your request. Please try again."

/-- AgenticAssistant._generate_response: build the grounding messages, invoke
the model, and degrade a raised error to the fixed apology. -/
def generate_response (llmInvoke : List (String × String) → Except String String)
    (memory_context : List RetMem) (tool_name : String) (tool_result : ToolResult)
    (history : List Msg) : String :=
  match llmInvoke (build_messages memory_context tool_name tool_result history) with
  | .ok r => r
  | .error _ => apologyText

/-! ## Generic lemmas about the stable sort and the list helpers -/

theorem mem_insertStable (ge : α → α → Bool) (x a : α) (l : List α) :
    a ∈ insertStable ge x l ↔ a = x ∨ a ∈ l := by
  induction l with
  | nil => simp [insertStable]
  | cons y ys ih =>
    by_cases h : ge x y = true
    · simp [insertStable, h]
    · simp only [insertStable, if_neg h, List.mem_cons, ih]
      tauto

theorem pairwise_insertStable (ge : α → α → Bool)
    (htot : ∀ a b, ge a b = true ∨ ge b a = true)
    (htrans : ∀ a b c, ge a b = true → ge b c = true → ge a c = true)
    (x : α) (l : List α) (hl : l.Pairwise (fun a b => ge a b = true)) :
    (insertStable ge x l).Pairwise (fun a b => ge a b = true) := by
  induction l with
  | nil => simp [insertStable]
  | cons y ys ih =>
    obtain ⟨hy, hys⟩ := List.pairwise_cons.mp hl
    by_cases h : ge x y = true
    · have hrw : insertStable ge x (y :: ys) = x :: y :: ys := by
        simp [insertStable, h]
      rw [hrw]
      refine List.Pairwise.cons ?_ (List.Pairwise.cons hy hys)
      intro z hz
      rcases List.mem_cons.mp hz with rfl | hz
      · exact h
      · exact htrans x y z h (hy z hz)
    · have hrw : insertStable ge x (y :: ys) = y :: insertStable ge x ys := by
        simp [insertStable, h]
      rw [hrw]
      refine List.Pairwise.cons ?_ (ih hys)
      intro z hz
      rcases (mem_insertStable ge x z ys).mp hz with hz0 | hz
      · rw [hz0]
        rcases htot x y with h1 | h1
        · exact absurd h1 h
        · exact h1
      · exact hy z hz

theorem pairwise_sortStable (ge : α → α → Bool)
    (htot : ∀ a b, ge a b = true ∨ ge b a = true)
    (htrans : ∀ a b c, ge a b = true → ge b c = true → ge a c = true)
    (l : List α) : (sortStable ge l).Pairwise (fun a b => ge a b = true) := by
  induction l with
  | nil => exact List.Pairwise.nil
  | cons x xs ih => exact pairwise_insertStable ge htot htrans x (sortStable ge xs) ih

theorem mem_sortStable (ge : α → α → Bool) (a : α) (l : List α) :
    a ∈ sortStable ge l ↔ a ∈ l := by
  induction l with
  | nil => simp [sortStable]
  | cons x xs ih =>
    simp only [sortStable, mem_insertStable, ih, List.mem_cons]

theorem map_fst_insertStable (ge : α → α → Bool) (p : α × Nat) (L : List (α × Nat)) :
    (insertStable (fun u v => ge u.1 v.1) p L).map Prod.fst =
      insertStable ge p.1 (L.map Prod.fst) := by
  induction L with
  | nil => simp [insertStable]
  | cons q L ih =>
    by_cases h : ge p.1 q.1 = true
    · simp [insertStable, h]
    · simp [insertStable, h, ih]

theorem map_fst_sortStable (ge : α → α → Bool) (L : List (α × Nat)) :
    (sortStable (fun u v => ge u.1 v.1) L).map Prod.fst =
      sortStable ge (L.map Prod.fst) := by
  induction L with
  | nil => simp [sortStable]
  | cons p L ih => simp [sortStable, map_fst_insertStable, ih]

theorem map_fst_withIdx (n : Nat) (l : List α) : (withIdx n l).map Prod.fst = l := by
  induction l generalizing n with
  | nil => simp [withIdx]
  | cons x xs ih => simp [withIdx, ih]

theorem idx_ge_of_mem_withIdx (n : Nat) (l : List α) :
    ∀ q ∈ withIdx n l, n ≤ q.2 := by
  induction l generalizing n with
  | nil => simp [withIdx]
  | cons x xs ih =>
    intro q hq
    rcases List.mem_cons.mp hq with rfl | hq
    · exact Nat.le_refl n
    · exact Nat.le_of_succ_le (ih (n + 1) q hq)

/-- Stability relation of the indexed descending sort: earlier output elements
compare greater-or-equal, and on a two-sided tie the earlier output element
carries the smaller original index. -/
def stabRel (ge : α → α → Bool) (p q : α × Nat) : Prop :=
  ge p.1 q.1 = true ∧ (ge q.1 p.1 = true → p.2 < q.2)

theorem stab_insertStable (ge : α → α → Bool)
    (htot : ∀ a b, ge a b = true ∨ ge b a = true)
    (htrans : ∀ a b c, ge a b = true → ge b c = true → ge a c = true)
    (a : α) (i : Nat) (L : List (α × Nat))
    (hL : L.Pairwise (stabRel ge))
    (hidx : ∀ q ∈ L, i < q.2) :
    (insertStable (fun u v => ge u.1 v.1) (a, i) L).Pairwise (stabRel ge) := by
  induction L with
  | nil => simp [insertStable, List.Pairwise.nil]
  | cons b L ih =>
    obtain ⟨hb, hLrest⟩ := List.pairwise_cons.mp hL
    by_cases h : ge a b.1 = true
    · have hrw : insertStable (fun u v => ge u.1 v.1) (a, i) (b :: L) = (a, i) :: b :: L := by
        simp [insertStable, h]
      rw [hrw]
      refine List.Pairwise.cons ?_ (List.Pairwise.cons hb hLrest)
      intro q hq
      rcases List.mem_cons.mp hq with hq0 | hq
      · rw [hq0]
        exact ⟨h, fun _ => hidx b (List.mem_cons_self b L)⟩
      · refine ⟨htrans a b.1 q.1 h (hb q hq).1, fun _ => hidx q (List.mem_cons_of_mem b hq)⟩
    · have hrw : insertStable (fun u v => ge u.1 v.1) (a, i) (b :: L) =
          b :: insertStable (fun u v => ge u.1 v.1) (a, i) L := by
        simp [insertStable, h]
      rw [hrw]
      refine List.Pairwise.cons ?_
        (ih hLrest (fun q hq => hidx q (List.mem_cons_of_mem b hq)))
      intro q hq
      rcases (mem_insertStable _ (a, i) q L).mp hq with hq0 | hq
      · rw [hq0]
        rcases htot a b.1 with h1 | h1
        · exact absurd h1 h
        · exact ⟨h1, fun hc => absurd hc h⟩
      · exact hb q hq

theorem stab_sortStable (ge : α → α → Bool)
    (htot : ∀ a b, ge a b = true ∨ ge b a = true)
    (htrans : ∀ a b c, ge a b = true → ge b c = true → ge a c = true)
    (l : List α) : ∀ n,
    (sortStable (fun u v => ge u.1 v.1) (withIdx n l)).Pairwise (stabRel ge) := by
  induction l with
  | nil => intro n; simp [withIdx, sortStable, List.Pairwise.nil]
  | cons x xs ih =>
    intro n
    refine stab_insertStable ge htot htrans x n _ (ih (n + 1)) ?_
    intro q hq
    have hq1 : q ∈ withIdx (n + 1) xs := (mem_sortStable _ q _).mp hq
    exact Nat.lt_of_succ_le (idx_ge_of_mem_withIdx (n + 1) xs q hq1)

/-! ## Claim theorems -/

theorem combinedOrder_total (a b : RetMem) :
    combinedOrder a b = true ∨ combinedOrder b a = true := by
  simp only [combinedOrder, decide_eq_true_eq]
  exact le_total _ _

theorem combinedOrder_trans (a b c : RetMem) (h1 : combinedOrder a b = true)
    (h2 : combinedOrder b c = true) : combinedOrder a c = true := by
  simp only [combinedOrder, decide_eq_true_eq] at h1 h2 ⊢
  exact le_trans h2 h1

/-- C3: retrieve_relevant_memories returns at most limit facts; the returned
list is non-increasing in confidence + relevance; and the returned list is
the limit-prefix of the stable descending sort of the scored candidates,
whose ties are resolved by the original fetch position: the indexed run of
the same sort is pairwise ordered by score and, on two-sided score ties, by
strictly increasing fetch index. Reproducibility for identical inputs holds
definitionally, the embedding being a pure function of its arguments. -/
theorem C3_retrieve_bounded_sorted_stable :
    ∀ (store : List MemoryEntry) (uid context : String)
      (categories : Option (List String)) (limit : Nat),
      (retrieve_relevant_memories store uid context categories limit).length ≤ limit
    ∧ (retrieve_relevant_memories store uid context categories limit).Pairwise
        (fun a b => b.confidence + b.relevance ≤ a.confidence + a.relevance)
    ∧ retrieve_relevant_memories store uid context categories limit =
        ((sortStable (fun u v => combinedOrder u.1 v.1)
            (withIdx 0 (score_and_filter context
              (fetch_candidates store uid categories limit)))).map Prod.fst).take limit
    ∧ (sortStable (fun u v => combinedOrder u.1 v.1)
        (withIdx 0 (score_and_filter context
          (fetch_candidates store uid categories limit)))).Pairwise
        (stabRel combinedOrder) := by
  intro store uid context categories limit
  refine ⟨List.length_take_le _ _, ?_, ?_, ?_⟩
  · have hp := pairwise_sortStable combinedOrder combinedOrder_total
      combinedOrder_trans (score_and_filter context
        (fetch_candidates store uid categories limit))
    have hp2 := hp.sublist (List.take_sublist limit _)
    exact hp2.imp (fun h => by
      simpa only [combinedOrder, decide_eq_true_eq] using h)
  · show (sortStable combinedOrder _).take limit = _
    rw [map_fst_sortStable, map_fst_withIdx]
  · exact stab_sortStable combinedOrder combinedOrder_total combinedOrder_trans _ 0

/-- C5: the relevance score of a candidate equals 0.1 times the number of
distinct tokens shared by the lowered context and the lowered content, plus
0.3 when the context mentions meeting or schedule and the category is
schedule or preference, plus 0.3 when the context mentions email or mail and
the category is project or contact; and a fetched candidate survives into
the scored list exactly when its relevance is positive or its confidence
exceeds 0.7. -/
theorem C5_relevance_formula_and_keep :
    (∀ (context_lower : String) (e : MemoryEntry),
      relevance_score context_lower e =
        (overlapCount context_lower (pyLower e.content) : ℚ) * (1 / 10)
        + (if (containsSub "meeting" context_lower || containsSub "schedule" context_lower)
              && (e.category == MemoryCategory.SCHEDULE || e.category == MemoryCategory.PREFERENCE)
            then 3 / 10 else 0)
        + (if (containsSub "email" context_lower || containsSub "mail" context_lower)
              && (e.category == MemoryCategory.PROJECT || e.category == MemoryCategory.CONTACT)
            then 3 / 10 else 0))
  ∧ (∀ (context : String) (candidates : List MemoryEntry) (e : MemoryEntry),
      e ∈ candidates →
      (toRetMem (pyLower context) e ∈ score_and_filter context candidates ↔
        relevance_score (pyLower context) e > 0 ∨ e.confidence > 7 / 10)) := by
  constructor
  · intro cl e
    simp only [relevance_score]
    split <;> split <;> ring
  · intro context cands e he
    constructor
    · intro hmem
      obtain ⟨a, ha, hae⟩ := List.mem_map.mp hmem
      have hkeep := (List.mem_filter.mp ha).2
      have hconf : a.confidence = e.confidence := congrArg RetMem.confidence hae
      have hrel : relevance_score (pyLower context) a =
          relevance_score (pyLower context) e := congrArg RetMem.relevance hae
      simp only [keepMemory, Bool.or_eq_true, decide_eq_true_eq, hconf, hrel] at hkeep
      exact hkeep
    · intro hcond
      refine List.mem_map.mpr ⟨e, List.mem_filter.mpr ⟨he, ?_⟩, rfl⟩
      simp only [keepMemory, Bool.or_eq_true, decide_eq_true_eq]
      exact hcond

/-- Witness for C5 at a concrete store: a preference fact with no token
overlap is kept through the scheduling category bonus. -/
theorem C5_witness :
    (MemoryEntry.mk 0 "u" "i hate mornings" "preference" "chat" (9 / 10) 0 0)
      ∈ [MemoryEntry.mk 0 "u" "i hate mornings" "preference" "chat" (9 / 10) 0 0]
    ∧ (toRetMem (pyLower "schedule a meeting")
        (MemoryEntry.mk 0 "u" "i hate mornings" "preference" "chat" (9 / 10) 0 0)
      ∈ score_and_filter "schedule a meeting"
        [MemoryEntry.mk 0 "u" "i hate mornings" "preference" "chat" (9 / 10) 0 0] ↔
      relevance_score (pyLower "schedule a meeting")
        (MemoryEntry.mk 0 "u" "i hate mornings" "preference" "chat" (9 / 10) 0 0) > 0
      ∨ (MemoryEntry.mk 0 "u" "i hate mornings" "preference" "chat" (9 / 10) 0 0).confidence
          > 7 / 10) :=
  ⟨List.mem_singleton.mpr rfl,
    C5_relevance_formula_and_keep.2 "schedule a meeting" _ _
      (List.mem_singleton.mpr rfl)⟩

/-- C2 counterexample: on the message of scenario A the router does not
select get_today_schedule, because the calendar trigger precedes the today
trigger in the table and the message contains the word calendar. -/
theorem C2_counterexample :
    analyze_intent "what\x27s on my calendar today" ≠
      some ("calendar", "get_today_schedule") := by
  decide

/-- C2 amended: for the message of scenario A the router selects capability
calendar with action get_upcoming_events, the action of the first matching
trigger of the table. -/
theorem C2_amended_router_choice :
    analyze_intent "what\x27s on my calendar today" =
      some ("calendar", "get_upcoming_events") := by
  decide

theorem findKeyword_eq_none (tbl : List (String × String × String)) (m : String) :
    findKeyword tbl m = none ↔ ∀ k ∈ tbl, containsSub k.1 m = false := by
  induction tbl with
  | nil => simp [findKeyword]
  | cons e rest ih =>
    obtain ⟨kw, t, a⟩ := e
    by_cases h : containsSub kw m = true
    · simp [findKeyword, h]
    · simp only [findKeyword, if_neg h, ih, List.mem_cons]
      constructor
      · rintro hall k (rfl | hk)
        · exact Bool.not_eq_true _ ▸ (Bool.eq_false_iff.mpr h)
        · exact hall k hk
      · intro hall k hk
        exact hall k (Or.inr hk)

/-- C8: intent routing is a pure, deterministic, total function of the
message and the static trigger tables: identical runs agree, the decision
depends on the message only through its lowering, and the no-match outcome
is the valid value none, reached exactly when no trigger of either table
occurs in the lowered message; totality is by construction, the embedding
being a function. -/
theorem C8_route_deterministic_total :
    (∀ m : String, analyze_intent m = analyze_intent m)
  ∧ (∀ m₁ m₂ : String, pyLower m₁ = pyLower m₂ →
      analyze_intent m₁ = analyze_intent m₂)
  ∧ (∀ m : String, analyze_intent m = none ↔
      ∀ k ∈ gmail_keywords ++ calendar_keywords, containsSub k.1 (pyLower m) = false) := by
  refine ⟨fun m => rfl, ?_, ?_⟩
  · intro m₁ m₂ h
    simp only [analyze_intent, h]
  · intro m
    simp only [analyze_intent]
    constructor
    · intro h k hk
      rcases hg : findKeyword gmail_keywords (pyLower m) with _ | r
      · rw [hg] at h
        rcases List.mem_append.mp hk with hk | hk
        · exact (findKeyword_eq_none _ _).mp hg k hk
        · exact (findKeyword_eq_none _ _).mp h k hk
      · rw [hg] at h
        simp at h
    · intro hall
      have hg : findKeyword gmail_keywords (pyLower m) = none :=
        (findKeyword_eq_none _ _).mpr
          (fun k hk => hall k (List.mem_append.mpr (Or.inl hk)))
      rw [hg]
      exact (findKeyword_eq_none _ _).mpr
        (fun k hk => hall k (List.mem_append.mpr (Or.inr hk)))

/-- Witness for C8 at concrete messages: case-variant inputs route alike, and
a trigger-free message routes to none. -/
theorem C8_witness :
    analyze_intent "Check my INBOX" = analyze_intent "check my inbox" ∧
    (analyze_intent "hello there" = none ↔
      ∀ k ∈ gmail_keywords ++ calendar_keywords,
        containsSub k.1 (pyLower "hello there") = false) :=
  ⟨C8_route_deterministic_total.2.1 "Check my INBOX" "check my inbox" (by decide),
   C8_route_deterministic_total.2.2 "hello there"⟩

theorem findKeyword_mem (tbl : List (String × String × String)) (m : String)
    (r : String × String) (h : findKeyword tbl m = some r) :
    ∃ kw, (kw, r) ∈ tbl ∧ containsSub kw m = true := by
  induction tbl with
  | nil => simp [findKeyword] at h
  | cons e rest ih =>
    obtain ⟨kw, t, a⟩ := e
    by_cases hc : containsSub kw m = true
    · simp only [findKeyword, if_pos hc, Option.some.injEq] at h
      exact ⟨kw, by rw [h]; exact List.mem_cons_self _ _, hc⟩
    · simp only [findKeyword, if_neg hc] at h
      obtain ⟨kw1, hmem, hkw1⟩ := ih h
      exact ⟨kw1, List.mem_cons_of_mem _ hmem, hkw1⟩

/-- C10: the email trigger precedes the send email trigger, so every message
containing send email routes to fetch_emails; and the send_email action is
reached only by a message containing reply and none of the six earlier gmail
triggers. -/
theorem C10_send_email_shadowed :
    (∀ m : String, containsSub "send email" (pyLower m) = true →
      analyze_intent m = some ("gmail", "fetch_emails"))
  ∧ (∀ m : String, analyze_intent m = some ("gmail", "send_email") →
      containsSub "reply" (pyLower m) = true
      ∧ containsSub "inbox" (pyLower m) = false
      ∧ containsSub "email" (pyLower m) = false
      ∧ containsSub "mail" (pyLower m) = false
      ∧ containsSub "unread" (pyLower m) = false
      ∧ containsSub "important emails" (pyLower m) = false
      ∧ containsSub "send email" (pyLower m) = false) := by
  constructor
  · intro m h
    have hemail : containsSub "email" (pyLower m) = true :=
      containsSub_mono (by decide) h
    simp only [analyze_intent, findKeyword, gmail_keywords]
    by_cases hinbox : containsSub "inbox" (pyLower m) = true
    · simp [hinbox]
    · simp [hinbox, hemail]
  · intro m h
    simp only [analyze_intent] at h
    rcases hg : findKeyword gmail_keywords (pyLower m) with _ | r
    · rw [hg] at h
      obtain ⟨kw, hmem, _⟩ := findKeyword_mem _ _ _ h
      have hcal : ∀ e ∈ calendar_keywords, e.2.1 = "calendar" := by decide
      have := hcal (kw, ("gmail", "send_email")) hmem
      simp at this
    · rw [hg] at h
      simp only [Option.some.injEq] at h
      subst h
      by_cases h1 : containsSub "inbox" (pyLower m) = true
      · simp [findKeyword, gmail_keywords, h1] at hg
      · by_cases h2 : containsSub "email" (pyLower m) = true
        · simp [findKeyword, gmail_keywords, h1, h2] at hg
        · by_cases h3 : containsSub "mail" (pyLower m) = true
          · simp [findKeyword, gmail_keywords, h1, h2, h3] at hg
          · by_cases h4 : containsSub "unread" (pyLower m) = true
            · simp [findKeyword, gmail_keywords, h1, h2, h3, h4] at hg
            · have h5 : containsSub "important emails" (pyLower m) = false := by
                by_cases hc : containsSub "important emails" (pyLower m) = true
                · exact absurd
                    (@containsSub_mono "important emails" "email" (pyLower m)
                      (by decide) hc) (by simp [h2])
                · simp only [Bool.not_eq_true] at hc
                  exact hc
              have h6 : containsSub "send email" (pyLower m) = false := by
                by_cases hc : containsSub "send email" (pyLower m) = true
                · exact absurd
                    (@containsSub_mono "send email" "email" (pyLower m)
                      (by decide) hc) (by simp [h2])
                · simp only [Bool.not_eq_true] at hc
                  exact hc
              by_cases h7 : containsSub "reply" (pyLower m) = true
              · exact ⟨h7, by simp [h1], by simp [h2], by simp [h3], by simp [h4], h5, h6⟩
              · simp [findKeyword, gmail_keywords, h1, h2, h3, h4, h5, h6, h7] at hg

/-- Witness for C10 at concrete messages: a send email request routes to
fetch_emails, and a bare reply request reaches send_email with the earlier
triggers absent. -/
theorem C10_witness :
    analyze_intent "please send email to bob" = some ("gmail", "fetch_emails")
    ∧ (containsSub "reply" (pyLower "reply to bob") = true
      ∧ containsSub "inbox" (pyLower "reply to bob") = false
      ∧ containsSub "email" (pyLower "reply to bob") = false
      ∧ containsSub "mail" (pyLower "reply to bob") = false
      ∧ containsSub "unread" (pyLower "reply to bob") = false
      ∧ containsSub "important emails" (pyLower "reply to bob") = false
      ∧ containsSub "send email" (pyLower "reply to bob") = false) :=
  ⟨C10_send_email_shadowed.1 "please send email to bob" (by decide),
   C10_send_email_shadowed.2 "reply to bob" (by decide)⟩

set_option maxRecDepth 8000 in
/-- C6: a routed (capability, action) pair absent from the capability table
(both components nonempty, as every routed pair is) makes the tool stage
return the error dict tagged Tool not found — the stage is a total function,
so it never raises — and the grounding text then equals the no-tool grounding
text extended by the visible warning marker and the error, never by a data
payload; on the concrete scenario D shape the marker is present and the data
header absent. -/
theorem C6_tool_not_found :
    ∀ (call : String → String → Except String ToolResult)
      (tool_name tool_action : String),
      tool_name ≠ "" → tool_action ≠ "" →
      lookupAction tool_name tool_action = false →
      execute_tool call tool_name tool_action = .rdict [("error", "Tool not found")]
    ∧ (∀ memory_context : List RetMem,
        build_system_prompt memory_context tool_name
            (.rdict [("error", "Tool not found")]) =
          build_system_prompt memory_context tool_name .rnone
            ++ "\n\n" ++ warningMarker ++ " Error: " ++ "Tool not found")
    ∧ containsSub warningMarker
        (build_system_prompt [] "gmail" (.rdict [("error", "Tool not found")])) = true
    ∧ containsSub "Data retrieved"
        (build_system_prompt [] "gmail" (.rdict [("error", "Tool not found")])) = false := by
  intro call tool_name tool_action hn ha hl
  refine ⟨?_, ?_, by decide, by decide⟩
  · simp [execute_tool, hn, ha, hl]
  · intro memory_context
    simp [build_system_prompt, dictGetTruthy, dictGet]

/-- Witness for C6 at the scenario D pair (gmail, nonexistent). -/
theorem C6_witness :
    execute_tool (fun _ _ => Except.ok ToolResult.rnone) "gmail" "nonexistent" =
      ToolResult.rdict [("error", "Tool not found")]
    ∧ build_system_prompt [] "gmail" (.rdict [("error", "Tool not found")]) =
        build_system_prompt [] "gmail" .rnone
          ++ "\n\n" ++ warningMarker ++ " Error: " ++ "Tool not found" :=
  ⟨(C6_tool_not_found (fun _ _ => Except.ok ToolResult.rnone) "gmail" "nonexistent"
      (by decide) (by decide) (by decide)).1,
   (C6_tool_not_found (fun _ _ => Except.ok ToolResult.rnone) "gmail" "nonexistent"
      (by decide) (by decide) (by decide)).2.1 []⟩

/-- C9: whenever the language model invocation raises during response
generation, the pipeline returns the fixed apology string instead of
propagating the error. -/
theorem C9_llm_failure_apology :
    ∀ (llmInvoke : List (String × String) → Except String String)
      (memory_context : List RetMem) (tool_name : String)
      (tool_result : ToolResult) (history : List Msg) (e : String),
      llmInvoke (build_messages memory_context tool_name tool_result history) =
        .error e →
      generate_response llmInvoke memory_context tool_name tool_result history =
        apologyText := by
  intro llmInvoke memory_context tool_name tool_result history e herr
  simp [generate_response, herr]

/-- Witness for C9 with an always-raising model invocation. -/
theorem C9_witness :
    generate_response (fun _ => Except.error "boom") [] "" ToolResult.rnone [] =
      apologyText :=
  C9_llm_failure_apology (fun _ => Except.error "boom") [] "" ToolResult.rnone []
    "boom" rfl

/-- C7: every user turn matched by a pattern of the preference table yields a
candidate fact carrying that pattern's category at confidence exactly 0.9
(the preference-tagged patterns, as in scenario B, give category preference),
with content the exact original turn text; project-table matches yield
confidence 0.85; one turn contributes one candidate per matching pattern of
either table; and on the scenario B message the extractor produces exactly
the preference fact at 0.9 with the original text. -/
theorem C7_extractor_patterns :
    (∀ (messages : List Msg) (m : Msg) (p : (String → Bool) × String),
      m ∈ messages → m.role = "user" → p ∈ preference_patterns →
      p.1 (pyLower m.content) = true →
      Fact.mk m.content p.2 MemorySource.CHAT (9 / 10) ∈
        extract_facts_from_conversation messages)
  ∧ (∀ (messages : List Msg) (m : Msg) (p : (String → Bool) × String),
      m ∈ messages → m.role = "user" → p ∈ project_patterns →
      p.1 (pyLower m.content) = true →
      Fact.mk m.content p.2 MemorySource.CHAT (17 / 20) ∈
        extract_facts_from_conversation messages)
  ∧ (∀ content : String, (extract_turn content).length =
      (preference_patterns.filter (fun p => p.1 (pyLower content))).length
      + (project_patterns.filter (fun p => p.1 (pyLower content))).length)
  ∧ extract_facts_from_conversation [Msg.mk "user" "I hate early morning meetings"] =
      [Fact.mk "I hate early morning meetings" MemoryCategory.PREFERENCE
        MemorySource.CHAT (9 / 10)] := by
  refine ⟨?_, ?_, ?_, rfl⟩
  · intro messages m p hm hrole hp hmatch
    simp only [extract_facts_from_conversation, List.mem_flatten]
    refine ⟨extract_turn m.content, ?_, ?_⟩
    · refine List.mem_map.mpr ⟨m, hm, ?_⟩
      simp [hrole]
    · simp only [extract_turn, List.mem_append]
      exact Or.inl (List.mem_map.mpr ⟨p, List.mem_filter.mpr ⟨hp, hmatch⟩, rfl⟩)
  · intro messages m p hm hrole hp hmatch
    simp only [extract_facts_from_conversation, List.mem_flatten]
    refine ⟨extract_turn m.content, ?_, ?_⟩
    · refine List.mem_map.mpr ⟨m, hm, ?_⟩
      simp [hrole]
    · simp only [extract_turn, List.mem_append]
      exact Or.inr (List.mem_map.mpr ⟨p, List.mem_filter.mpr ⟨hp, hmatch⟩, rfl⟩)
  · intro content
    simp [extract_turn]

/-- Witness for C7 at the scenario B message and the first preference
pattern. -/
theorem C7_witness :
    Fact.mk "I hate early morning meetings" MemoryCategory.PREFERENCE
        MemorySource.CHAT (9 / 10) ∈
      extract_facts_from_conversation
        [Msg.mk "user" "I hate early morning meetings"] :=
  C7_extractor_patterns.1 [Msg.mk "user" "I hate early morning meetings"]
    (Msg.mk "user" "I hate early morning meetings")
    (pat_pref_dislike, MemoryCategory.PREFERENCE)
    (List.mem_singleton.mpr rfl) rfl (List.mem_cons_self _ _) (by decide)

/-- C4: the confidence of every persisted memory row lies in the unit
interval at every point of its lifecycle: the check constraint of the
memory_entries table admits only such rows, any commit that would violate it
rolls the transaction back, so a valid table stays valid under every
sequence of store_facts, update_memory and delete_memory operations,
whatever confidences the callers pass. -/
theorem C4_confidence_invariant :
    ∀ (uid : String) (store : List MemoryEntry) (ops : List MemOp),
      store.all rowValid = true → (runOps uid store ops).all rowValid = true := by
  intro uid store ops
  induction ops generalizing store with
  | nil => exact fun h => h
  | cons op rest ih =>
    intro h
    refine ih (applyOp uid store op) ?_
    cases op with
    | storeOp now facts =>
      simp only [applyOp, store_facts]
      rcases storeLoop uid now facts store with _ | committed
      · exact h
      · simp only
        split
        · next hc => exact hc
        · exact h
    | updateOp mid nc nconf now =>
      simp only [applyOp, update_memory]
      rcases store.find? (rowKey uid mid) with _ | e
      · exact h
      · simp only
        split
        · next hc => exact hc
        · exact h
    | deleteOp mid =>
      simp only [applyOp, delete_memory]
      rcases store.find? (rowKey uid mid) with _ | e
      · exact h
      · simp only
        have hrm : ∀ (l : List MemoryEntry), l.all rowValid = true →
            (removeFirst (rowKey uid mid) l).all rowValid = true := by
          intro l
          induction l with
          | nil => simp [removeFirst]
          | cons x xs ihx =>
            intro hx
            rw [List.all_cons, Bool.and_eq_true] at hx
            by_cases hpx : rowKey uid mid x = true
            · simp only [removeFirst, if_pos hpx]
              exact hx.2
            · simp only [removeFirst, if_neg hpx, List.all_cons, Bool.and_eq_true]
              exact ⟨hx.1, ihx hx.2⟩
        exact hrm store h

/-- Witness for C4: from a valid one-row table, a store whose batch bumps
the row followed by an attempted update to an out-of-range confidence leaves
every row valid. -/
theorem C4_witness :
    (runOps "u" [MemoryEntry.mk 0 "u" "x" "preference" "chat" (1 / 2) 0 0]
      [MemOp.storeOp 5 [Fact.mk "x" "fact" "email" (9 / 10)],
       MemOp.updateOp 0 none (some (3 / 2)) 7]).all rowValid = true :=
  C4_confidence_invariant "u"
    [MemoryEntry.mk 0 "u" "x" "preference" "chat" (1 / 2) 0 0]
    [MemOp.storeOp 5 [Fact.mk "x" "fact" "email" (9 / 10)],
     MemOp.updateOp 0 none (some (3 / 2)) 7] (by norm_num [rowValid])

/-! ## Lemmas about store_facts for the code-bug claim -/

theorem bumpConfidence_user_id (now : Nat) (conf : ℚ) (e : MemoryEntry) :
    (bumpConfidence now conf e).user_id = e.user_id := by
  simp only [bumpConfidence]
  split <;> rfl

theorem bumpConfidence_content (now : Nat) (conf : ℚ) (e : MemoryEntry) :
    (bumpConfidence now conf e).content = e.content := by
  simp only [bumpConfidence]
  split <;> rfl

theorem dupKey_bumpConfidence (uid c : String) (now : Nat) (conf : ℚ)
    (e : MemoryEntry) : dupKey uid c (bumpConfidence now conf e) = dupKey uid c e := by
  simp only [dupKey, bumpConfidence_user_id, bumpConfidence_content]

theorem find_isSome_updateFirst {q p : α → Bool} {f : α → α}
    (hq : ∀ x, q (f x) = q x) :
    ∀ l : List α, ((updateFirst p f l).find? q).isSome = (l.find? q).isSome := by
  intro l
  induction l with
  | nil => rfl
  | cons x xs ih =>
    by_cases hp : p x = true
    · rw [show updateFirst p f (x :: xs) = f x :: xs from by simp [updateFirst, hp]]
      by_cases hx : q x = true
      · rw [List.find?_cons_of_pos _ (by rw [hq x]; exact hx),
            List.find?_cons_of_pos _ hx]
        rfl
      · rw [List.find?_cons_of_neg _ (by rw [hq x]; exact hx),
            List.find?_cons_of_neg _ hx]
    · rw [show updateFirst p f (x :: xs) = x :: updateFirst p f xs from by
        simp [updateFirst, hp]]
      by_cases hx : q x = true
      · rw [List.find?_cons_of_pos _ hx, List.find?_cons_of_pos _ hx]
      · rw [List.find?_cons_of_neg _ hx, List.find?_cons_of_neg _ hx, ih]

/-- A batch containing a fact with no committed row of its (user, content)
key reaches the raising constructor: the loop aborts. The bumps applied
before the abort preserve every row's key, so the offending fact is still
keyless whenever it is reached. -/
theorem storeLoop_none_of_new (uid : String) (now : Nat) :
    ∀ (fs : List Fact) (committed : List MemoryEntry),
      (∃ f ∈ fs, (committed.find? (dupKey uid f.content)).isSome = false) →
      storeLoop uid now fs committed = none := by
  intro fs
  induction fs with
  | nil =>
    rintro committed ⟨f, hf, _⟩
    exact absurd hf (List.not_mem_nil f)
  | cons g fs ih =>
    rintro committed ⟨f, hf, hnew⟩
    by_cases hg : (committed.find? (dupKey uid g.content)).isSome = true
    · rcases List.mem_cons.mp hf with hfg | hf2
      · rw [hfg] at hnew
        rw [hnew] at hg
        exact absurd hg Bool.false_ne_true
      · rw [show storeLoop uid now (g :: fs) committed =
            storeLoop uid now fs
              (updateFirst (dupKey uid g.content)
                (bumpConfidence now g.confidence) committed) from by
          simp [storeLoop, hg]]
        refine ih _ ⟨f, hf2, ?_⟩
        rw [find_isSome_updateFirst
          (fun x => dupKey_bumpConfidence uid f.content now g.confidence x)]
        exact hnew
    · simp only [Bool.not_eq_true] at hg
      rw [show storeLoop uid now (g :: fs) committed = none from by
        simp [storeLoop, hg]]

/-- C1 evidence of the code bug: no call to store_facts ever inserts a row.
A batch containing any fact whose (owner, content) has no committed row
raises TypeError at MemoryEntry(..., extra_data=...) — the mapped class has
no extra_data attribute, its JSON column being named metadata — the blanket
except rolls the session back, and the table is returned unchanged with
stored_count 0. At the concrete failing input of the claim, a first store of
the scenario B fact into an empty table, the store ends with zero records
for the pair instead of one. -/
theorem C1_store_facts_never_inserts :
    (∀ (store : List MemoryEntry) (uid : String) (now : Nat) (facts : List Fact),
      (∃ f ∈ facts, (store.find? (dupKey uid f.content)).isSome = false) →
      store_facts store uid now facts = (store, 0))
  ∧ store_facts [] "u1" 0
      [Fact.mk "I hate early morning meetings" "preference" "chat" (9 / 10)] =
      ([], 0) := by
  constructor
  · intro store uid now facts hex
    simp [store_facts, storeLoop_none_of_new uid now facts store hex]
  · rfl

/-- Witness for C1 at a nonempty table: a batch holding one fact of a fresh
content leaves the table unchanged and reports zero stored facts. -/
theorem C1_witness :
    store_facts [MemoryEntry.mk 0 "u1" "other note" "fact" "chat" 1 0 0] "u1" 3
      [Fact.mk "I hate early morning meetings" "preference" "chat" (9 / 10)] =
      ([MemoryEntry.mk 0 "u1" "other note" "fact" "chat" 1 0 0], 0) :=
  C1_store_facts_never_inserts.1
    [MemoryEntry.mk 0 "u1" "other note" "fact" "chat" 1 0 0] "u1" 3
    [Fact.mk "I hate early morning meetings" "preference" "chat" (9 / 10)]
    ⟨Fact.mk "I hate early morning meetings" "preference" "chat" (9 / 10),
      List.mem_singleton.mpr rfl, rfl⟩

end Assistant
